import Mathlib

/-!
Verification of the concurrent DNI batch-verification server
(`src/PROYECTO/main.go`, handler `handleConsultar`).

The Go program parses two multi-line text inputs into `ComparisonRow`
records, launches one goroutine per record under a counting semaphore of
`MaxWorkers` permits, runs a retry loop against an external HTTP registry,
compares the input name fields with the authoritative ones using
`strings.EqualFold`, and streams every terminal record over a channel that
is closed once a `sync.WaitGroup` barrier reports all goroutines done.

This file gives a shallow embedding:
* the per-record data (`ComparisonRow`, `APIResponse`) and the pure
  parsing / retry / comparison logic are Lean functions translated
  line-by-line from the Go source;
* the network is an oracle `Nat → AttemptResult` giving the outcome of
  each `client.Do` attempt (transport error, or an HTTP response whose
  body either fails to parse as JSON or parses to a `Json` value);
* the scheduler (semaphore, WaitGroup, channel close) is a small-step
  trace semantics `step` / `runTrace` over per-goroutine program
  counters, with the transitions read off the goroutine body.
-/

/-- ASCII whitespace, as recognised by Go's `strings.TrimSpace` (which
also folds the Unicode space classes; the inputs at issue are ASCII). -/
def goIsSpace (c : Char) : Bool :=
  c = ' ' || c = '\t' || c = '\n' || c = '\r' || c = '\x0b' || c = '\x0c'

/-- Drops leading characters satisfying `goIsSpace`. -/
def dropSpaces : List Char → List Char
  | [] => []
  | c :: cs => if goIsSpace c then dropSpaces cs else c :: cs

/-- Embeds `strings.TrimSpace`: removes leading and trailing whitespace. -/
def goTrimSpace (s : String) : String :=
  String.mk ((dropSpaces (dropSpaces s.data).reverse).reverse)

/-- Splitter for `strings.Split(lineaNombre, "\t")`: cuts at every tab,
never returns an empty list (Go's `Split` with a non-empty separator). -/
def splitTabGo : List Char → List Char → List String
  | [], acc => [ String.mk acc.reverse ]
  | c :: cs, acc =>
    if c = '\t' then String.mk acc.reverse :: splitTabGo cs []
    else splitTabGo cs (c :: acc)

/-- Embeds `strings.Split(s, "\t")`. -/
def splitTab (s : String) : List String := splitTabGo s.data []

/-- Embeds the Go struct `ComparisonRow` (main.go lines 40-57).
`ID` is a Go `int` that only ever takes the values `0, 1, 2, …` of the
parse-time counter, so it is modelled as `Nat`. -/
structure ComparisonRow where
  ID : Nat
  DNI : String
  NombreInput : String
  PaternoInput : String
  MaternoInput : String
  NombreAPI : String
  PaternoAPI : String
  MaternoAPI : String
  MatchNombre : Bool
  MatchPaterno : Bool
  MatchMaterno : Bool
  HasError : Bool
  ErrorMessage : String
  IsPending : Bool
deriving Repr, DecidableEq

/-- Embeds the Go struct `APIResponse` (main.go lines 33-38). -/
structure APIResponse where
  FirstName : String
  FirstLastName : String
  SecondLastName : String
  Message : String
deriving Repr, DecidableEq

/-- The zero value of `APIResponse`, as produced by `var apiData APIResponse`. -/
def APIResponse.zero : APIResponse := ⟨ "", "", "", "" ⟩

/-- `MaxRetries = 3` (main.go line 26). -/
def MaxRetries : Nat := 3

/-- `MaxWorkers = 3` (main.go line 24). -/
def MaxWorkers : Nat := 3

/-- JSON values, used to model the bytes of a 200 response body after
JSON parsing. -/
inductive Json where
  | null : Json
  | bool (b : Bool) : Json
  | num (n : Int) : Json
  | str (s : String) : Json
  | arr (elems : List Json) : Json
  | obj (fields : List (String × Json)) : Json

/-- ASCII case folding: upper-case letters map to lower-case. -/
def foldChar (c : Char) : Char :=
  if 'A' ≤ c ∧ c ≤ 'Z' then Char.ofNat (c.toNat + 32) else c

/-- Embeds `strings.EqualFold` as used on the name fields (main.go lines
288-290): case-insensitive equality.  (Go additionally folds non-ASCII
case pairs; the fields at issue are compared through this one function
on both the code side and the specification side, and every concrete
instance in this file is ASCII, where the two agree.) -/
def eqFold (a b : String) : Bool := a.data.map foldChar == b.data.map foldChar

/-- Embeds one field assignment of Go `encoding/json.Unmarshal` into the
`APIResponse` struct.  The decoder matches an object key against the
struct field tags case-insensitively (its fold is `strings.EqualFold`,
embedded here as `eqFold`; Go prefers an exact match, but the four tags
are pairwise distinct even under folding, so the preference cannot change
which field a key reaches).  A matching key must carry a JSON string
(JSON `null` is a no-op), any other value type is an unmarshal error
(`none`); a key matching no field is ignored. -/
def assignField (a : APIResponse) (k : String) (v : Json) : Option APIResponse :=
  if eqFold k "first_name" then
    match v with
    | Json.str s => some { a with FirstName := s }
    | Json.null => some a
    | _ => none
  else if eqFold k "first_last_name" then
    match v with
    | Json.str s => some { a with FirstLastName := s }
    | Json.null => some a
    | _ => none
  else if eqFold k "second_last_name" then
    match v with
    | Json.str s => some { a with SecondLastName := s }
    | Json.null => some a
    | _ => none
  else if eqFold k "message" then
    match v with
    | Json.str s => some { a with Message := s }
    | Json.null => some a
    | _ => none
  else some a

/-- Folds `assignField` over the key/value pairs of a JSON object, in
order (so a duplicated key keeps its last well-typed value, as in Go). -/
def assignFields (a : APIResponse) : List (String × Json) → Option APIResponse
  | [] => some a
  | (k, v) :: rest =>
    match assignField a k v with
    | some a2 => assignFields a2 rest
    | none => none

/-- Embeds `json.Unmarshal(bodyBytes, &apiData)` applied to a body that
is syntactically valid JSON: top-level `null` leaves the zero struct,
a top-level object assigns its fields, and any other top-level value is
an unmarshal error. -/
def jsonUnmarshal : Json → Option APIResponse
  | Json.null => some APIResponse.zero
  | Json.obj kvs => assignFields APIResponse.zero kvs
  | _ => none

/-- `json.Unmarshal` on the raw body: `none` is a body that is not
syntactically valid JSON. -/
def unmarshalBody : Option Json → Option APIResponse
  | none => none
  | some j => jsonUnmarshal j

/-- Outcome of one `client.Do(req)` call (main.go line 253):
either a transport-level error (`err != nil`, in which case Go's
`http.Client.Do` returns a nil response), or an HTTP response with a
status code and a body; the body is `none` when it is not syntactically
valid JSON, `some j` when it parses to the JSON value `j`. -/
inductive AttemptResult where
  | transportErr : AttemptResult
  | httpResp (status : Nat) (body : Option Json) : AttemptResult

/-- State left behind by the retry loop of main.go lines 248-267:
`success` is the Go `success` flag, `last` is the (`resp`, `err`) pair
left in scope by the last executed attempt (`none` if no attempt ran),
`sleep` is the total number of seconds slept inside the loop, and
`attempts` is the number of `client.Do` calls issued. -/
structure LoopOut where
  success : Bool
  last : Option AttemptResult
  sleep : Nat
  attempts : Nat

/-- The retry loop `for attempt := 0; attempt < MaxRetries; attempt++`
(main.go lines 248-267).  `i` is the current value of `attempt`, `r` the
number of iterations still allowed, `sl` and `n` accumulate sleep time and
attempt count, `l` the last attempt's outcome.
* transport error (`err != nil`): sleep 1 second, continue;
* status 429: close the body, sleep `2 + attempt` seconds, continue;
* any other status: set `success = true` and break. -/
def loopGo (oracle : Nat → AttemptResult) :
    Nat → Nat → Nat → Nat → Option AttemptResult → LoopOut
  | _, 0, sl, n, l => ⟨ false, l, sl, n ⟩
  | i, r + 1, sl, n, _ =>
    match oracle i with
    | AttemptResult.transportErr =>
        loopGo oracle (i + 1) r (sl + 1) (n + 1) (some AttemptResult.transportErr)
    | AttemptResult.httpResp s b =>
        if s = 429 then
          loopGo oracle (i + 1) r (sl + (2 + i)) (n + 1) (some (AttemptResult.httpResp s b))
        else
          ⟨ true, some (AttemptResult.httpResp s b), sl, n + 1 ⟩

/-- The whole retry loop, started at `attempt = 0` with `MaxRetries`
iterations allowed and no response/error in scope. -/
def runRetry (oracle : Nat → AttemptResult) : LoopOut :=
  loopGo oracle 0 MaxRetries 0 0 none

/-- `fmt.Sprintf("HTTP %d", resp.StatusCode)` (main.go lines 275 and 297). -/
def httpTag (s : Nat) : String := "HTTP " ++ toString s

/-- Embeds main.go lines 269-300: what the goroutine does to its row copy
`r0` after the retry loop finished with state `out`.
* `r.IsPending = false` unconditionally;
* `!success || err != nil`: `HasError`, message `"Error Red"`, overwritten
  with `"HTTP <status>"` when `err == nil && resp != nil` (which after an
  unsuccessful loop means the last attempt returned status 429);
* success with status 200 and a body `json.Unmarshal` accepts: populate
  the three authoritative fields and the three `strings.EqualFold` flags;
* success with status 200 and a rejected body: `HasError`, `"JSON Error"`;
* success with any other status: `HasError`, `"HTTP <status>"`. -/
def finishRow (out : LoopOut) (r0 : ComparisonRow) : ComparisonRow :=
  let r := { r0 with IsPending := false }
  if out.success then
    match out.last with
    | some (AttemptResult.httpResp s b) =>
      if s = 200 then
        match unmarshalBody b with
        | some api =>
          { r with
            NombreAPI := api.FirstName
            PaternoAPI := api.FirstLastName
            MaternoAPI := api.SecondLastName
            MatchNombre := eqFold r.NombreInput api.FirstName
            MatchPaterno := eqFold r.PaternoInput api.FirstLastName
            MatchMaterno := eqFold r.MaternoInput api.SecondLastName }
        | none => { r with HasError := true, ErrorMessage := "JSON Error" }
      else
        { r with HasError := true, ErrorMessage := httpTag s }
    | _ => r
  else
    match out.last with
    | some (AttemptResult.httpResp s _) =>
        { r with HasError := true, ErrorMessage := httpTag s }
    | _ => { r with HasError := true, ErrorMessage := "Error Red" }

/-- One goroutine body (main.go lines 238-301) as a function of the
network oracle: run the retry loop, then finish the row.  The returned
row is the value sent on `resultsChan`. -/
def processRow (oracle : Nat → AttemptResult) (r : ComparisonRow) : ComparisonRow :=
  finishRow (runRetry oracle) r

/-- Splits one name line as main.go lines 190-200 do: split on the tab
character, take up to three parts, trim each present part, and let a
missing part default to the empty string. -/
def parseFields (linea : String) : String × String × String :=
  let parts := splitTab linea
  ( goTrimSpace ((parts.get? 0).getD "")
  , goTrimSpace ((parts.get? 1).getD "")
  , goTrimSpace ((parts.get? 2).getD "") )

/-- `lineaNombre := ""` unless `scannerNames.Scan()` still has a line
(main.go lines 185-188): the next unconsumed name line, or `""`. -/
def headLine : List String → String
  | [] => ""
  | n :: _ => n

/-- The name lines still unconsumed after one `scannerNames.Scan()`. -/
def tailLines : List String → List String
  | [] => []
  | _ :: ns => ns

/-- The parsing loop of main.go lines 178-211, over the already-split
lines of the two text areas.  A DNI line that is blank after trimming is
skipped with `continue` — before the name scanner is advanced, so no name
line is consumed for it.  A non-blank DNI line consumes the next name
line when one remains (otherwise the name line is `""`), and produces a
`Pending` row with the next sequential `ID`. -/
def parseRows : List String → List String → Nat → List ComparisonRow
  | [], _, _ => []
  | d :: ds, names, id =>
    if goTrimSpace d = "" then
      parseRows ds names id
    else
      let f := parseFields (headLine names)
      { ID := id
        DNI := goTrimSpace d
        NombreInput := f.1
        PaternoInput := f.2.1
        MaternoInput := f.2.2
        NombreAPI := ""
        PaternoAPI := ""
        MaternoAPI := ""
        MatchNombre := false
        MatchPaterno := false
        MatchMaterno := false
        HasError := false
        ErrorMessage := ""
        IsPending := true } :: parseRows ds (tailLines names) (id + 1)

/-- The whole parse of the two text areas, starting at `idCounter = 0`. -/
def parseBatch (dnis nombres : List String) : List ComparisonRow :=
  parseRows dnis nombres 0

/-- Every record of the batch run through its goroutine body: record `r`
uses the attempt oracle `oracles r.ID`.  The multiset of rows delivered on
`resultsChan` is a permutation of this list (one send per goroutine,
delivery order being completion order). -/
def processBatch (oracles : Nat → Nat → AttemptResult)
    (rows : List ComparisonRow) : List ComparisonRow :=
  rows.map (fun r => processRow (oracles r.ID) r)

/-- Program counter of one record's goroutine (main.go lines 238-301):
`idle` = spawned but not yet past `sem <- struct{}{}`;
`acquired` = holding a permit, between attempts;
`inCall` = holding a permit, inside `client.Do` (a lookup in flight);
`emitted` = past `resultsChan <- r`;
`released` = past the deferred `<-sem`;
`finished` = past the deferred `wg.Done()`. -/
inductive Pc where
  | idle : Pc
  | acquired : Pc
  | inCall : Pc
  | emitted : Pc
  | released : Pc
  | finished : Pc
deriving Repr, DecidableEq

/-- Observable scheduler events of a batch run: goroutine `t` acquiring
or releasing its semaphore permit, starting or finishing one
`client.Do` call, sending its row on `resultsChan`, completing
`wg.Done()`, and the producer goroutine executing `close(resultsChan)`
after `wg.Wait()` (main.go lines 303-304). -/
inductive Ev where
  | acquire (t : Nat) : Ev
  | lookupStart (t : Nat) : Ev
  | lookupEnd (t : Nat) : Ev
  | emit (t : Nat) : Ev
  | taskDone (t : Nat) : Ev
  | release (t : Nat) : Ev
  | close : Ev
deriving Repr, DecidableEq

/-- Scheduler state: one program counter per spawned goroutine, the
number of permits currently taken from the `sem` channel (capacity
`MaxWorkers`), and whether `resultsChan` has been closed. -/
structure TState where
  pcs : List Pc
  sem : Nat
  closed : Bool
deriving Repr, DecidableEq

/-- One scheduler step, with `W` the semaphore capacity.  An event is
enabled exactly when the Go synchronization primitives allow it:
`acquire` blocks while `sem` holds `W` values (buffered-channel send),
the deferred `release` runs after the goroutine body, i.e. after `emit`,
the deferred `wg.Done` runs after `release` (defers run last-registered
first), and `close` requires `wg.Wait` to have returned, i.e. every
goroutine `finished`.  Nothing steps after `close`. -/
def step (W : Nat) (s : TState) : Ev → Option TState
  | Ev.acquire t =>
      if s.closed then none
      else if s.pcs.get? t = some Pc.idle ∧ s.sem < W then
        some { s with pcs := s.pcs.set t Pc.acquired, sem := s.sem + 1 }
      else none
  | Ev.lookupStart t =>
      if s.closed then none
      else if s.pcs.get? t = some Pc.acquired then
        some { s with pcs := s.pcs.set t Pc.inCall }
      else none
  | Ev.lookupEnd t =>
      if s.closed then none
      else if s.pcs.get? t = some Pc.inCall then
        some { s with pcs := s.pcs.set t Pc.acquired }
      else none
  | Ev.emit t =>
      if s.closed then none
      else if s.pcs.get? t = some Pc.acquired then
        some { s with pcs := s.pcs.set t Pc.emitted }
      else none
  | Ev.release t =>
      if s.closed then none
      else if s.pcs.get? t = some Pc.emitted then
        some { s with pcs := s.pcs.set t Pc.released, sem := s.sem - 1 }
      else none
  | Ev.taskDone t =>
      if s.closed then none
      else if s.pcs.get? t = some Pc.released then
        some { s with pcs := s.pcs.set t Pc.finished }
      else none
  | Ev.close =>
      if s.closed then none
      else if ∀ p ∈ s.pcs, p = Pc.finished then
        some { s with closed := true }
      else none

/-- Runs a trace of scheduler events from a given state. -/
def runFrom (W : Nat) (s : TState) : List Ev → Option TState
  | [] => some s
  | e :: tr =>
    match step W s e with
    | some s2 => runFrom W s2 tr
    | none => none

/-- The initial scheduler state for a batch of `T` records: every
goroutine `idle`, no permit taken, channel open. -/
def initState (T : Nat) : TState := ⟨ List.replicate T Pc.idle, 0, false ⟩

/-- Runs a trace of scheduler events for a batch of `T` records under
semaphore capacity `W`; `none` means the trace is not a possible
execution. -/
def runTrace (W T : Nat) (tr : List Ev) : Option TState :=
  runFrom W (initState T) tr

/-- `true` on the program counters that hold a semaphore permit. -/
def holdsPermit : Pc → Bool
  | Pc.acquired => true
  | Pc.inCall => true
  | Pc.emitted => true
  | _ => false

/-- `true` on the program counter of a goroutine whose `client.Do` call
is in flight. -/
def inFlight : Pc → Bool
  | Pc.inCall => true
  | _ => false

/-- Number of program counters satisfying `p`. -/
def countP (p : Pc → Bool) (l : List Pc) : Nat := (l.filter p).length

/-! ### Helper lemmas about the retry loop -/

theorem loopGo_zero (oracle : Nat → AttemptResult) (i sl n : Nat)
    (l : Option AttemptResult) : loopGo oracle i 0 sl n l = ⟨ false, l, sl, n ⟩ := rfl

theorem loopGo_succ (oracle : Nat → AttemptResult) (i r sl n : Nat)
    (l : Option AttemptResult) :
    loopGo oracle i (r + 1) sl n l =
      match oracle i with
      | AttemptResult.transportErr =>
          loopGo oracle (i + 1) r (sl + 1) (n + 1) (some AttemptResult.transportErr)
      | AttemptResult.httpResp s b =>
          if s = 429 then
            loopGo oracle (i + 1) r (sl + (2 + i)) (n + 1)
              (some (AttemptResult.httpResp s b))
          else
            ⟨ true, some (AttemptResult.httpResp s b), sl, n + 1 ⟩ := rfl

theorem loopGo_transport {oracle : Nat → AttemptResult} {i : Nat}
    (h : oracle i = AttemptResult.transportErr) (r sl n : Nat)
    (l : Option AttemptResult) :
    loopGo oracle i (r + 1) sl n l =
      loopGo oracle (i + 1) r (sl + 1) (n + 1) (some AttemptResult.transportErr) := by
  rw [loopGo_succ, h]

theorem loopGo_rate {oracle : Nat → AttemptResult} {i : Nat} {b : Option Json}
    (h : oracle i = AttemptResult.httpResp 429 b) (r sl n : Nat)
    (l : Option AttemptResult) :
    loopGo oracle i (r + 1) sl n l =
      loopGo oracle (i + 1) r (sl + (2 + i)) (n + 1)
        (some (AttemptResult.httpResp 429 b)) := by
  rw [loopGo_succ, h]
  simp

theorem loopGo_break {oracle : Nat → AttemptResult} {i : Nat} {s : Nat}
    {b : Option Json} (h : oracle i = AttemptResult.httpResp s b) (hs : s ≠ 429)
    (r sl n : Nat) (l : Option AttemptResult) :
    loopGo oracle i (r + 1) sl n l =
      ⟨ true, some (AttemptResult.httpResp s b), sl, n + 1 ⟩ := by
  rw [loopGo_succ, h]
  simp [hs]

/-- The loop issues at most `n + r` total attempts when `n` are already
counted and `r` iterations remain. -/
theorem loopGo_attempts_le (oracle : Nat → AttemptResult) :
    ∀ (r i sl n : Nat) (l : Option AttemptResult),
      (loopGo oracle i r sl n l).attempts ≤ n + r := by
  intro r
  induction r with
  | zero => intro i sl n l; simp [loopGo_zero]
  | succ r ih =>
    intro i sl n l
    cases h : oracle i with
    | transportErr =>
      rw [loopGo_transport h]
      have := ih (i + 1) (sl + 1) (n + 1) (some AttemptResult.transportErr)
      omega
    | httpResp s b =>
      by_cases hs : s = 429
      · subst hs
        rw [loopGo_rate h]
        have := ih (i + 1) (sl + (2 + i)) (n + 1) (some (AttemptResult.httpResp 429 b))
        omega
      · rw [loopGo_break h hs]
        dsimp only
        omega

/-! ### Helper lemmas about `finishRow` -/

/-- `finishRow` never touches the `ID` field. -/
theorem finishRow_ID (out : LoopOut) (r : ComparisonRow) :
    (finishRow out r).ID = r.ID := by
  rcases out with ⟨succ, last, sl, n⟩
  cases succ with
  | false =>
    cases last with
    | none => rfl
    | some a => cases a <;> rfl
  | true =>
    cases last with
    | none => rfl
    | some a =>
      cases a with
      | transportErr => rfl
      | httpResp s b =>
        by_cases hs : s = 200
        · subst hs
          cases hb : unmarshalBody b <;> simp [finishRow, hb]
        · simp [finishRow, hs]

/-- `finishRow` always clears the `IsPending` flag (main.go line 269). -/
theorem finishRow_IsPending (out : LoopOut) (r : ComparisonRow) :
    (finishRow out r).IsPending = false := by
  rcases out with ⟨succ, last, sl, n⟩
  cases succ with
  | false =>
    cases last with
    | none => rfl
    | some a => cases a <;> rfl
  | true =>
    cases last with
    | none => rfl
    | some a =>
      cases a with
      | transportErr => rfl
      | httpResp s b =>
        by_cases hs : s = 200
        · subst hs
          cases hb : unmarshalBody b <;> simp [finishRow, hb]
        · simp [finishRow, hs]

/-- `fmt.Sprintf("HTTP %d", …)` never produces the empty string. -/
theorem httpTag_ne_empty (s : Nat) : httpTag s ≠ "" := by
  intro h
  have hlen := congrArg String.length h
  rw [httpTag, String.length_append] at hlen
  have h5 : ("HTTP " : String).length = 5 := rfl
  have h0 : ("" : String).length = 0 := rfl
  omega

/-! ### Helper lemmas about the parser -/

theorem parseRows_nil (names : List String) (id : Nat) :
    parseRows [] names id = [] := rfl

theorem parseRows_cons (d : String) (ds names : List String) (id : Nat) :
    parseRows (d :: ds) names id =
      if goTrimSpace d = "" then
        parseRows ds names id
      else
        { ID := id
          DNI := goTrimSpace d
          NombreInput := (parseFields (headLine names)).1
          PaternoInput := (parseFields (headLine names)).2.1
          MaternoInput := (parseFields (headLine names)).2.2
          NombreAPI := ""
          PaternoAPI := ""
          MaternoAPI := ""
          MatchNombre := false
          MatchPaterno := false
          MatchMaterno := false
          HasError := false
          ErrorMessage := ""
          IsPending := true } :: parseRows ds (tailLines names) (id + 1) := rfl

/-- Every row produced by the parsing loop starts in the `Pending` zero
state: no authoritative data, no flags, no error. -/
theorem parseRows_init (dnis : List String) :
    ∀ (names : List String) (id : Nat) (r : ComparisonRow),
      r ∈ parseRows dnis names id →
      r.NombreAPI = "" ∧ r.PaternoAPI = "" ∧ r.MaternoAPI = "" ∧
      r.MatchNombre = false ∧ r.MatchPaterno = false ∧ r.MatchMaterno = false ∧
      r.HasError = false ∧ r.ErrorMessage = "" ∧ r.IsPending = true := by
  induction dnis with
  | nil => intro names id r h; simp [parseRows_nil] at h
  | cons d ds ih =>
    intro names id r h
    rw [parseRows_cons] at h
    by_cases hd : goTrimSpace d = ""
    · rw [if_pos hd] at h
      exact ih names id r h
    · rw [if_neg hd] at h
      simp only [List.mem_cons] at h
      rcases h with h | h
      · subst h
        exact ⟨ rfl, rfl, rfl, rfl, rfl, rfl, rfl, rfl, rfl ⟩
      · exact ih _ _ r h

/-- An attempt outcome the retry loop continues past: a transport error
or an HTTP 429 response. -/
def retryable (o : AttemptResult) : Prop :=
  o = AttemptResult.transportErr ∨ ∃ b, o = AttemptResult.httpResp 429 b

/-- If the first `m` attempts starting at index `i` are retryable and
attempt `i + m` returns a non-429 status, the loop breaks there, with
`n + m + 1` attempts counted in total. -/
theorem loopGo_break_after (oracle : Nat → AttemptResult) :
    ∀ (m i r sl n : Nat) (l : Option AttemptResult),
      (∀ j, j < m → retryable (oracle (i + j))) → m < r →
      ∀ s b, oracle (i + m) = AttemptResult.httpResp s b → s ≠ 429 →
      ∃ sl2, loopGo oracle i r sl n l =
        ⟨ true, some (AttemptResult.httpResp s b), sl2, n + m + 1 ⟩ := by
  intro m
  induction m with
  | zero =>
    intro i r sl n l hpre hmr s b hs h429
    obtain ⟨r2, rfl⟩ : ∃ r2, r = r2 + 1 := ⟨ r - 1, by omega ⟩
    rw [Nat.add_zero] at hs
    exact ⟨ sl, loopGo_break hs h429 r2 sl n l ⟩
  | succ m ih =>
    intro i r sl n l hpre hmr s b hs h429
    obtain ⟨r2, rfl⟩ : ∃ r2, r = r2 + 1 := ⟨ r - 1, by omega ⟩
    have h0 : retryable (oracle i) := by
      have := hpre 0 (by omega)
      simpa using this
    have hpre2 : ∀ j, j < m → retryable (oracle (i + 1 + j)) := by
      intro j hj
      have hh := hpre (j + 1) (by omega)
      have heq : i + (j + 1) = i + 1 + j := by omega
      rwa [heq] at hh
    have hs2 : oracle (i + 1 + m) = AttemptResult.httpResp s b := by
      have heq : i + (m + 1) = i + 1 + m := by omega
      rwa [heq] at hs
    rcases h0 with h0 | ⟨ b0, h0 ⟩
    · rw [loopGo_transport h0]
      obtain ⟨sl2, he⟩ := ih (i + 1) r2 (sl + 1) (n + 1)
        (some AttemptResult.transportErr) hpre2 (by omega) s b hs2 h429
      have heq : n + 1 + m + 1 = n + (m + 1) + 1 := by omega
      rw [heq] at he
      exact ⟨ sl2, he ⟩
    · rw [loopGo_rate h0]
      obtain ⟨sl2, he⟩ := ih (i + 1) r2 (sl + (2 + i)) (n + 1)
        (some (AttemptResult.httpResp 429 b0)) hpre2 (by omega) s b hs2 h429
      have heq : n + 1 + m + 1 = n + (m + 1) + 1 := by omega
      rw [heq] at he
      exact ⟨ sl2, he ⟩

/-- A parsed `Pending` row used to instantiate the per-record theorems. -/
def sampleRow : ComparisonRow :=
  { ID := 0
    DNI := "12345678"
    NombreInput := "juan"
    PaternoInput := "Perez"
    MaternoInput := ""
    NombreAPI := ""
    PaternoAPI := ""
    MaternoAPI := ""
    MatchNombre := false
    MatchPaterno := false
    MatchMaterno := false
    HasError := false
    ErrorMessage := ""
    IsPending := true }

/-- C1: for every record that reaches `Resolved` from an HTTP 200
response whose body unmarshals, each of the three match flags equals the
case-insensitive (`strings.EqualFold`) equality of the corresponding
input field and authoritative field, the three flags computed
independently from the three field pairs and nothing else. -/
theorem c1_resolved_match_flags (oracle : Nat → AttemptResult) (r : ComparisonRow)
    (sl n : Nat) (b : Option Json) (api : APIResponse)
    (hloop : runRetry oracle = ⟨ true, some (AttemptResult.httpResp 200 b), sl, n ⟩)
    (hjson : unmarshalBody b = some api) :
    (processRow oracle r).MatchNombre = eqFold r.NombreInput api.FirstName ∧
    (processRow oracle r).MatchPaterno = eqFold r.PaternoInput api.FirstLastName ∧
    (processRow oracle r).MatchMaterno = eqFold r.MaternoInput api.SecondLastName ∧
    (processRow oracle r).NombreAPI = api.FirstName ∧
    (processRow oracle r).PaternoAPI = api.FirstLastName ∧
    (processRow oracle r).MaternoAPI = api.SecondLastName := by
  unfold processRow
  rw [hloop]
  simp [finishRow, hjson]

/-- The 200 body used by the C1 witness. -/
def c1Body : Json :=
  Json.obj [ ( "first_name", Json.str "JUAN" ), ( "first_last_name", Json.str "PEREZ" ) ]

/-- The attempt oracle used by the C1 witness: 200 on the first attempt. -/
def c1Oracle : Nat → AttemptResult :=
  fun _ => AttemptResult.httpResp 200 (some c1Body)

theorem c1_resolved_match_flags_witness :
    (processRow c1Oracle sampleRow).MatchNombre
        = eqFold sampleRow.NombreInput "JUAN" ∧
    (processRow c1Oracle sampleRow).MatchPaterno
        = eqFold sampleRow.PaternoInput "PEREZ" ∧
    (processRow c1Oracle sampleRow).MatchMaterno
        = eqFold sampleRow.MaternoInput "" ∧
    (processRow c1Oracle sampleRow).NombreAPI = "JUAN" ∧
    (processRow c1Oracle sampleRow).PaternoAPI = "PEREZ" ∧
    (processRow c1Oracle sampleRow).MaternoAPI = "" :=
  c1_resolved_match_flags c1Oracle sampleRow 0 1 (some c1Body)
    ⟨ "JUAN", "PEREZ", "", "" ⟩ rfl rfl

/-- Attempt oracle answering HTTP 429 on every attempt. -/
def allRate : Nat → AttemptResult := fun _ => AttemptResult.httpResp 429 none

/-- C2 counterexample: when every attempt is rate-limited, the code also
sleeps after the final attempt (the `continue` at main.go line 260 runs
before the loop condition fails), so the total backoff is
`(2+0) + (2+1) + (2+2) = 9` seconds, not the claimed
`∑ k < MaxRetries-1, (2+k) = 5`. -/
theorem c2_counterexample :
    (runRetry allRate).sleep ≠ ∑ k ∈ Finset.range (MaxRetries - 1), (2 + k) := by
  have h9 : (runRetry allRate).sleep = 9 := rfl
  have h5 : (∑ k ∈ Finset.range (MaxRetries - 1), (2 + k)) = 5 := by decide
  omega

/-- C2 (amended): a record that receives HTTP 429 on every one of its
`MaxRetries` attempts ends `Failed` with the rate-limit tag `HTTP 429`,
and the total elapsed backoff equals the sum of `(2+k)` for
`k = 0 … MaxRetries-1` — one escalating sleep per attempt, including the
final one. -/
theorem c2_rate_limited_exhaustion (oracle : Nat → AttemptResult) (r : ComparisonRow)
    (h : ∀ k, k < MaxRetries → ∃ b, oracle k = AttemptResult.httpResp 429 b) :
    (processRow oracle r).HasError = true ∧
    (processRow oracle r).ErrorMessage = httpTag 429 ∧
    (runRetry oracle).sleep = ∑ k ∈ Finset.range MaxRetries, (2 + k) ∧
    (runRetry oracle).attempts = MaxRetries := by
  obtain ⟨b0, h0⟩ := h 0 (by decide)
  obtain ⟨b1, h1⟩ := h 1 (by decide)
  obtain ⟨b2, h2⟩ := h 2 (by decide)
  have hrun : runRetry oracle = ⟨ false, some (AttemptResult.httpResp 429 b2), 9, 3 ⟩ := by
    have e0 := loopGo_rate h0 2 0 0 none
    have e1 := loopGo_rate h1 1 (0 + (2 + 0)) (0 + 1)
      (some (AttemptResult.httpResp 429 b0))
    have e2 := loopGo_rate h2 0 (0 + (2 + 0) + (2 + 1)) (0 + 1 + 1)
      (some (AttemptResult.httpResp 429 b1))
    exact e0.trans (e1.trans e2)
  have hpr : processRow oracle r
      = finishRow ⟨ false, some (AttemptResult.httpResp 429 b2), 9, 3 ⟩ r := by
    unfold processRow
    rw [hrun]
  refine ⟨ ?_, ?_, ?_, ?_ ⟩
  · rw [hpr]; simp [finishRow]
  · rw [hpr]; simp [finishRow]
  · rw [hrun]; dsimp only; decide
  · rw [hrun]; rfl

theorem c2_rate_limited_exhaustion_witness :
    (processRow allRate sampleRow).HasError = true ∧
    (processRow allRate sampleRow).ErrorMessage = httpTag 429 ∧
    (runRetry allRate).sleep = ∑ k ∈ Finset.range MaxRetries, (2 + k) ∧
    (runRetry allRate).attempts = MaxRetries :=
  c2_rate_limited_exhaustion allRate sampleRow (fun _ _ => ⟨ none, rfl ⟩)

/-- C5: a lookup whose attempt `k` (after `k` retryable outcomes) returns
a non-success status other than 429 makes the record terminal `Failed`
immediately: the loop breaks at attempt `k + 1` with no further retries,
and the error tag carries that HTTP status. -/
theorem c5_http_error_immediate (oracle : Nat → AttemptResult) (r : ComparisonRow)
    (k s : Nat) (b : Option Json)
    (hk : k < MaxRetries)
    (hpre : ∀ j, j < k → retryable (oracle j))
    (hs : oracle k = AttemptResult.httpResp s b)
    (h429 : s ≠ 429) (h200 : s ≠ 200) :
    (runRetry oracle).attempts = k + 1 ∧
    (runRetry oracle).success = true ∧
    (processRow oracle r).HasError = true ∧
    (processRow oracle r).ErrorMessage = httpTag s ∧
    (processRow oracle r).IsPending = false := by
  obtain ⟨sl2, hrun⟩ := loopGo_break_after oracle k 0 MaxRetries 0 0 none
    (by intro j hj; simpa using hpre j hj) hk s b (by simpa using hs) h429
  have hrr : runRetry oracle
      = ⟨ true, some (AttemptResult.httpResp s b), sl2, 0 + k + 1 ⟩ := hrun
  have hpr : processRow oracle r
      = finishRow ⟨ true, some (AttemptResult.httpResp s b), sl2, 0 + k + 1 ⟩ r := by
    unfold processRow
    rw [hrr]
  refine ⟨ ?_, ?_, ?_, ?_, ?_ ⟩
  · rw [hrr]; simp
  · rw [hrr]
  · rw [hpr]; simp [finishRow, h200]
  · rw [hpr]; simp [finishRow, h200]
  · rw [hpr]; simp [finishRow, h200]

/-- Attempt oracle answering HTTP 500 on every attempt. -/
def allServerError : Nat → AttemptResult := fun _ => AttemptResult.httpResp 500 none

theorem c5_http_error_immediate_witness :
    (runRetry allServerError).attempts = 0 + 1 ∧
    (runRetry allServerError).success = true ∧
    (processRow allServerError sampleRow).HasError = true ∧
    (processRow allServerError sampleRow).ErrorMessage = httpTag 500 ∧
    (processRow allServerError sampleRow).IsPending = false :=
  c5_http_error_immediate allServerError sampleRow 0 500 none (by decide)
    (fun j hj => absurd hj (by omega)) rfl (by decide) (by decide)

/-- Attempt oracle answering a transport-level failure on every attempt. -/
def allTransport : Nat → AttemptResult := fun _ => AttemptResult.transportErr

/-- C6: at most `MaxRetries` lookup attempts are ever issued; each
transport-level failure is followed by a fixed 1-second backoff (so after
`MaxRetries` consecutive transport failures the loop slept
`MaxRetries * 1` seconds), and the record then ends terminal `Failed`
with the network-error tag `Error Red`. -/
theorem c6_transport_failures (oracle : Nat → AttemptResult) (r : ComparisonRow)
    (h : ∀ k, k < MaxRetries → oracle k = AttemptResult.transportErr) :
    (∀ anyOracle : Nat → AttemptResult, (runRetry anyOracle).attempts ≤ MaxRetries) ∧
    (runRetry oracle).attempts = MaxRetries ∧
    (runRetry oracle).sleep = MaxRetries * 1 ∧
    (processRow oracle r).HasError = true ∧
    (processRow oracle r).ErrorMessage = "Error Red" := by
  have h0 := h 0 (by decide)
  have h1 := h 1 (by decide)
  have h2 := h 2 (by decide)
  have hrun : runRetry oracle = ⟨ false, some AttemptResult.transportErr, 3, 3 ⟩ := by
    have e0 := loopGo_transport h0 2 0 0 none
    have e1 := loopGo_transport h1 1 (0 + 1) (0 + 1) (some AttemptResult.transportErr)
    have e2 := loopGo_transport h2 0 (0 + 1 + 1) (0 + 1 + 1) (some AttemptResult.transportErr)
    exact e0.trans (e1.trans e2)
  have hpr : processRow oracle r
      = finishRow ⟨ false, some AttemptResult.transportErr, 3, 3 ⟩ r := by
    unfold processRow
    rw [hrun]
  refine ⟨ ?_, ?_, ?_, ?_, ?_ ⟩
  · intro anyOracle
    have := loopGo_attempts_le anyOracle MaxRetries 0 0 0 none
    simpa [runRetry] using this
  · rw [hrun]; rfl
  · rw [hrun]; rfl
  · rw [hpr]; simp [finishRow]
  · rw [hpr]; simp [finishRow]

theorem c6_transport_failures_witness :
    (∀ anyOracle : Nat → AttemptResult, (runRetry anyOracle).attempts ≤ MaxRetries) ∧
    (runRetry allTransport).attempts = MaxRetries ∧
    (runRetry allTransport).sleep = MaxRetries * 1 ∧
    (processRow allTransport sampleRow).HasError = true ∧
    (processRow allTransport sampleRow).ErrorMessage = "Error Red" :=
  c6_transport_failures allTransport sampleRow (fun _ _ => rfl)

/-- C3 counterexample: with identifier lines `["", "12345678"]` and name
lines `["Juan...", "Maria..."]`, the blank first identifier line is
skipped before `scannerNames.Scan()` runs, so no name line is consumed
for it: the record parsed from the identifier at original position 1 is
paired with the name line at position 0 (`Juan`), not with the name line
at its own original position (`Maria`). -/
theorem c3_counterexample :
    (parseBatch [ "", "12345678" ] [ "Juan\tPerez\tLopez", "Maria\tGarcia\t" ]).map
        (fun r => ( r.DNI, r.NombreInput )) = [ ( "12345678", "Juan" ) ] ∧
    ( "Juan" : String ) ≠ "Maria" := by
  refine ⟨ rfl, ?_ ⟩
  decide

/-- C3 (amended): a blank identifier line is skipped producing no record
and consuming no line from the name block — parsing a list of identifier
lines is the same as parsing its non-blank sublist, so the i-th non-blank
identifier line is paired with the i-th name line (not with the name line
at the identifier's original position). -/
theorem c3_blank_lines_consume_no_name (dnis nombres : List String) (id : Nat) :
    parseRows dnis nombres id
      = parseRows (dnis.filter (fun d => goTrimSpace d != "")) nombres id := by
  induction dnis generalizing nombres id with
  | nil => rfl
  | cons d ds ih =>
    by_cases hd : goTrimSpace d = ""
    · have hf : (d :: ds).filter (fun d => goTrimSpace d != "")
          = ds.filter (fun d => goTrimSpace d != "") := by
        simp [List.filter_cons, hd]
      rw [parseRows_cons, if_pos hd, hf]
      exact ih nombres id
    · have hf : (d :: ds).filter (fun d => goTrimSpace d != "")
          = d :: ds.filter (fun d => goTrimSpace d != "") := by
        simp [List.filter_cons, hd]
      rw [parseRows_cons, if_neg hd, hf, parseRows_cons, if_neg hd,
        ih (tailLines nombres) (id + 1)]

/-- `processRow` never touches the `ID` field of its record. -/
theorem processRow_ID (oracle : Nat → AttemptResult) (r : ComparisonRow) :
    (processRow oracle r).ID = r.ID :=
  finishRow_ID (runRetry oracle) r

/-- Processing a batch maps each row to a row with the same `ID`. -/
theorem processBatch_map_ID (oracles : Nat → Nat → AttemptResult) :
    ∀ rows : List ComparisonRow,
      (processBatch oracles rows).map ComparisonRow.ID
        = rows.map ComparisonRow.ID := by
  intro rows
  induction rows with
  | nil => rfl
  | cons r rs ih =>
    simp only [processBatch, List.map_cons] at ih ⊢
    rw [processRow_ID, ih]

/-- C4: for every input batch and every delivery order of the result
stream (any permutation `out` of the processed rows, since each goroutine
sends its row exactly once and delivery order is completion order), the
multiset of delivered `ID`s is exactly the multiset of parse-time `ID`s:
no duplicates, no omissions. -/
theorem c4_ids_exactly_parsed (oracles : Nat → Nat → AttemptResult)
    (dnis nombres : List String) (out : List ComparisonRow)
    (hperm : out.Perm (processBatch oracles (parseBatch dnis nombres))) :
    (out.map ComparisonRow.ID).Perm
      ((parseBatch dnis nombres).map ComparisonRow.ID) := by
  have hmap := hperm.map ComparisonRow.ID
  rw [processBatch_map_ID] at hmap
  exact hmap

theorem c4_ids_exactly_parsed_witness :
    ((processBatch (fun _ => allRate) (parseBatch [ "1" ] [ "a" ])).map
        ComparisonRow.ID).Perm
      ((parseBatch [ "1" ] [ "a" ]).map ComparisonRow.ID) :=
  c4_ids_exactly_parsed (fun _ => allRate) [ "1" ] [ "a" ]
    (processBatch (fun _ => allRate) (parseBatch [ "1" ] [ "a" ]))
    (List.Perm.refl _)

/-- Shape of any row leaving `finishRow` when it entered in the parse-time
zero state: terminal, error message exactly when `HasError`, and no
authoritative data or flags on the `Failed` side. -/
theorem finishRow_shape (out : LoopOut) (r : ComparisonRow)
    (hna : r.NombreAPI = "") (hpa : r.PaternoAPI = "") (hma : r.MaternoAPI = "")
    (hmn : r.MatchNombre = false) (hmp : r.MatchPaterno = false)
    (hmm : r.MatchMaterno = false) (hhe : r.HasError = false)
    (hem : r.ErrorMessage = "") :
    (finishRow out r).IsPending = false ∧
    ((finishRow out r).HasError = true ↔ (finishRow out r).ErrorMessage ≠ "") ∧
    ((finishRow out r).HasError = true →
      (finishRow out r).NombreAPI = "" ∧
      (finishRow out r).PaternoAPI = "" ∧
      (finishRow out r).MaternoAPI = "" ∧
      (finishRow out r).MatchNombre = false ∧
      (finishRow out r).MatchPaterno = false ∧
      (finishRow out r).MatchMaterno = false) := by
  rcases out with ⟨succ, last, sl, n⟩
  cases succ with
  | false =>
    cases last with
    | none =>
      simp [finishRow, hna, hpa, hma, hmn, hmp, hmm]
    | some a =>
      cases a with
      | transportErr =>
        simp [finishRow, hna, hpa, hma, hmn, hmp, hmm]
      | httpResp s b =>
        simp [finishRow, hna, hpa, hma, hmn, hmp, hmm, httpTag_ne_empty s]
  | true =>
    cases last with
    | none =>
      simp [finishRow, hhe, hem]
    | some a =>
      cases a with
      | transportErr =>
        simp [finishRow, hhe, hem]
      | httpResp s b =>
        by_cases hs : s = 200
        · subst hs
          cases hb : unmarshalBody b with
          | none =>
            simp [finishRow, hb, hna, hpa, hma, hmn, hmp, hmm]
          | some api =>
            simp [finishRow, hb, hhe, hem]
        · simp [finishRow, hs, hna, hpa, hma, hmn, hmp, hmm, httpTag_ne_empty s]

/-- C7: every record delivered on the result stream satisfies the
status-shape invariant: it is terminal (`IsPending = false`), its error
message is present exactly when it is `Failed` (`HasError`), and its
authoritative name fields and match flags are unset whenever it is not
`Resolved`. -/
theorem c7_status_shape (dnis nombres : List String) (r : ComparisonRow)
    (hr : r ∈ parseBatch dnis nombres) (oracle : Nat → AttemptResult) :
    (processRow oracle r).IsPending = false ∧
    ((processRow oracle r).HasError = true ↔ (processRow oracle r).ErrorMessage ≠ "") ∧
    ((processRow oracle r).HasError = true →
      (processRow oracle r).NombreAPI = "" ∧
      (processRow oracle r).PaternoAPI = "" ∧
      (processRow oracle r).MaternoAPI = "" ∧
      (processRow oracle r).MatchNombre = false ∧
      (processRow oracle r).MatchPaterno = false ∧
      (processRow oracle r).MatchMaterno = false) := by
  obtain ⟨hna, hpa, hma, hmn, hmp, hmm, hhe, hem, _⟩ :=
    parseRows_init dnis nombres 0 r hr
  exact finishRow_shape (runRetry oracle) r hna hpa hma hmn hmp hmm hhe hem

/-- The single row parsed from identifier line `"1"` and name line `"a"`. -/
def c7Row : ComparisonRow :=
  { ID := 0
    DNI := "1"
    NombreInput := "a"
    PaternoInput := ""
    MaternoInput := ""
    NombreAPI := ""
    PaternoAPI := ""
    MaternoAPI := ""
    MatchNombre := false
    MatchPaterno := false
    MatchMaterno := false
    HasError := false
    ErrorMessage := ""
    IsPending := true }

theorem c7_status_shape_witness :
    (processRow allTransport c7Row).IsPending = false ∧
    ((processRow allTransport c7Row).HasError = true ↔
      (processRow allTransport c7Row).ErrorMessage ≠ "") ∧
    ((processRow allTransport c7Row).HasError = true →
      (processRow allTransport c7Row).NombreAPI = "" ∧
      (processRow allTransport c7Row).PaternoAPI = "" ∧
      (processRow allTransport c7Row).MaternoAPI = "" ∧
      (processRow allTransport c7Row).MatchNombre = false ∧
      (processRow allTransport c7Row).MatchPaterno = false ∧
      (processRow allTransport c7Row).MatchMaterno = false) :=
  c7_status_shape [ "1" ] [ "a" ] c7Row (by decide) allTransport

/-- C10 counterexample: a 200 response whose body is the syntactically
valid JSON value `[]` (an array) is not resolved — `json.Unmarshal`
rejects a non-object top level — so the record ends `Failed` with the
parse-error tag, refuting "an HTTP 200 body that is syntactically valid
JSON is always treated as Resolved". -/
theorem c10_counterexample :
    (processRow (fun _ => AttemptResult.httpResp 200 (some (Json.arr [])))
        sampleRow).HasError = true ∧
    (processRow (fun _ => AttemptResult.httpResp 200 (some (Json.arr [])))
        sampleRow).ErrorMessage = "JSON Error" :=
  ⟨ rfl, rfl ⟩

theorem assignFields_cons (a : APIResponse) (k : String) (v : Json)
    (rest : List (String × Json)) :
    assignFields a ((k, v) :: rest) =
      match assignField a k v with
      | some a2 => assignFields a2 rest
      | none => none := rfl

/-- Assigning a key that does not fold-match `first_name` leaves
`FirstName` alone. -/
theorem assignField_FirstName {a a2 : APIResponse} {k : String} {v : Json}
    (hk : eqFold k "first_name" = false) (h : assignField a k v = some a2) :
    a2.FirstName = a.FirstName := by
  have hk0 : ¬ (eqFold k "first_name" = true) := by simp [hk]
  unfold assignField at h
  rw [if_neg hk0] at h
  by_cases h1 : eqFold k "first_last_name" = true
  · rw [if_pos h1] at h
    cases v <;>
      first
      | exact Option.noConfusion h
      | (rw [Option.some.injEq] at h; rw [← h])
  · rw [if_neg h1] at h
    by_cases h2 : eqFold k "second_last_name" = true
    · rw [if_pos h2] at h
      cases v <;>
      first
      | exact Option.noConfusion h
      | (rw [Option.some.injEq] at h; rw [← h])
    · rw [if_neg h2] at h
      by_cases h3 : eqFold k "message" = true
      · rw [if_pos h3] at h
        cases v <;>
      first
      | exact Option.noConfusion h
      | (rw [Option.some.injEq] at h; rw [← h])
      · rw [if_neg h3] at h
        rw [Option.some.injEq] at h
        rw [← h]

/-- If no key of the object fold-matches `first_name`, unmarshalling
leaves the `FirstName` field at its input value. -/
theorem assignFields_FirstName :
    ∀ (kvs : List (String × Json)) (a api : APIResponse),
      assignFields a kvs = some api →
      (∀ kv ∈ kvs, eqFold kv.1 "first_name" = false) →
      api.FirstName = a.FirstName := by
  intro kvs
  induction kvs with
  | nil =>
    intro a api h hmem
    simp [assignFields] at h
    rw [← h]
  | cons kv rest ih =>
    intro a api h hmem
    rcases kv with ⟨k, v⟩
    have hk : eqFold k "first_name" = false :=
      hmem (k, v) (List.mem_cons_self _ _)
    have hrest : ∀ kv2 ∈ rest, eqFold kv2.1 "first_name" = false :=
      fun kv2 hkv2 => hmem kv2 (List.mem_cons_of_mem _ hkv2)
    rw [assignFields_cons] at h
    cases ha : assignField a k v with
    | none => rw [ha] at h; exact Option.noConfusion h
    | some a2 =>
      rw [ha] at h
      rw [ih a2 api h hrest]
      exact assignField_FirstName hk ha

/-- C10 (amended): an HTTP 200 record is `Resolved` exactly when
`json.Unmarshal` accepts the body — which requires not just syntactically
valid JSON but a top-level object (or `null`) whose recognised fields
(matched against the tags case-insensitively, as the Go decoder does)
are strings (or `null`).  On acceptance the authoritative fields come
from the payload, and when no key of the object fold-matches
`first_name` the `FirstName` field stays the empty string; on rejection
— whether a syntax error, a well-formed non-object value, or an
ill-typed (even case-variant) field — the record ends `Failed` with the
parse-error tag `JSON Error`. -/
theorem c10_unmarshal_decides (oracle : Nat → AttemptResult) (r : ComparisonRow)
    (sl n : Nat) (b : Option Json)
    (hhe : r.HasError = false)
    (hloop : runRetry oracle = ⟨ true, some (AttemptResult.httpResp 200 b), sl, n ⟩) :
    ((processRow oracle r).HasError = true ↔ unmarshalBody b = none) ∧
    ((processRow oracle r).HasError = true →
      (processRow oracle r).ErrorMessage = "JSON Error") ∧
    (∀ api, unmarshalBody b = some api →
      (processRow oracle r).NombreAPI = api.FirstName ∧
      (processRow oracle r).PaternoAPI = api.FirstLastName ∧
      (processRow oracle r).MaternoAPI = api.SecondLastName) ∧
    (∀ (kvs : List (String × Json)) (api : APIResponse),
      jsonUnmarshal (Json.obj kvs) = some api →
      (∀ kv ∈ kvs, eqFold kv.1 "first_name" = false) → api.FirstName = "") := by
  have hpr : processRow oracle r
      = finishRow ⟨ true, some (AttemptResult.httpResp 200 b), sl, n ⟩ r := by
    unfold processRow
    rw [hloop]
  have habsent : ∀ (kvs : List (String × Json)) (api : APIResponse),
      jsonUnmarshal (Json.obj kvs) = some api →
      (∀ kv ∈ kvs, eqFold kv.1 "first_name" = false) → api.FirstName = "" := by
    intro kvs api h hmem
    exact assignFields_FirstName kvs APIResponse.zero api h hmem
  cases hb : unmarshalBody b with
  | none =>
    refine ⟨ ?_, ?_, ?_, habsent ⟩
    · rw [hpr]; simp [finishRow, hb]
    · rw [hpr]; intro _; simp [finishRow, hb]
    · intro api hapi
      exact Option.noConfusion hapi
  | some api0 =>
    refine ⟨ ?_, ?_, ?_, habsent ⟩
    · rw [hpr]; simp [finishRow, hb, hhe]
    · rw [hpr]; simp [finishRow, hb, hhe]
    · intro api hapi
      have heq : api0 = api := Option.some.inj hapi
      subst heq
      rw [hpr]
      refine ⟨ ?_, ?_, ?_ ⟩ <;> simp [finishRow, hb]

/-- The 200 body used by the C10 witness: a JSON object with no
`first_name` key. -/
def c10Body : Json := Json.obj [ ( "message", Json.str "ok" ) ]

/-- The attempt oracle used by the C10 witness. -/
def c10Oracle : Nat → AttemptResult :=
  fun _ => AttemptResult.httpResp 200 (some c10Body)

theorem c10_unmarshal_decides_witness :
    ((processRow c10Oracle sampleRow).HasError = true ↔
      unmarshalBody (some c10Body) = none) ∧
    ((processRow c10Oracle sampleRow).HasError = true →
      (processRow c10Oracle sampleRow).ErrorMessage = "JSON Error") ∧
    (∀ api, unmarshalBody (some c10Body) = some api →
      (processRow c10Oracle sampleRow).NombreAPI = api.FirstName ∧
      (processRow c10Oracle sampleRow).PaternoAPI = api.FirstLastName ∧
      (processRow c10Oracle sampleRow).MaternoAPI = api.SecondLastName) ∧
    (∀ (kvs : List (String × Json)) (api : APIResponse),
      jsonUnmarshal (Json.obj kvs) = some api →
      (∀ kv ∈ kvs, eqFold kv.1 "first_name" = false) → api.FirstName = "") :=
  c10_unmarshal_decides c10Oracle sampleRow 0 1 (some c10Body) rfl rfl

/-! ### Helper lemmas about the scheduler trace semantics -/

theorem countP_cons (p : Pc → Bool) (x : Pc) (l : List Pc) :
    countP p (x :: l) = countP p l + (if p x then 1 else 0) := by
  unfold countP
  rw [List.filter_cons]
  by_cases h : p x
  · simp [h]
  · simp [h]

theorem countP_set (p : Pc → Bool) :
    ∀ (l : List Pc) (t : Nat) (old pnew : Pc), l.get? t = some old →
      countP p (l.set t pnew) + (if p old then 1 else 0)
        = countP p l + (if p pnew then 1 else 0) := by
  intro l
  induction l with
  | nil => intro t old pnew h; simp at h
  | cons x xs ih =>
    intro t old pnew h
    cases t with
    | zero =>
      simp only [List.get?] at h
      injection h with h
      subst h
      simp only [List.set]
      rw [countP_cons, countP_cons]
      omega
    | succ t =>
      simp only [List.get?] at h
      have := ih t old pnew h
      simp only [List.set]
      rw [countP_cons, countP_cons]
      omega

theorem countP_mono (p q : Pc → Bool) (hpq : ∀ x, p x = true → q x = true) :
    ∀ l : List Pc, countP p l ≤ countP q l := by
  intro l
  induction l with
  | nil => simp [countP, List.filter_nil]
  | cons x xs ih =>
    rw [countP_cons, countP_cons]
    by_cases hx : p x
    · rw [if_pos hx, if_pos (hpq x hx)]
      omega
    · rw [if_neg hx]
      by_cases hq : q x
      · rw [if_pos hq]; omega
      · rw [if_neg hq]; omega

theorem countP_replicate (p : Pc → Bool) (h : p Pc.idle = false) :
    ∀ T, countP p (List.replicate T Pc.idle) = 0 := by
  intro T
  induction T with
  | zero => rfl
  | succ T ih =>
    rw [List.replicate_succ, countP_cons, ih, h]
    rfl

theorem get?_set_self (p : Pc) :
    ∀ (l : List Pc) (t : Nat) (x : Pc), l.get? t = some x →
      (l.set t p).get? t = some p := by
  intro l
  induction l with
  | nil => intro t x h; simp at h
  | cons y ys ih =>
    intro t x h
    cases t with
    | zero => rfl
    | succ t => exact ih t x h

theorem get?_set_other (p : Pc) :
    ∀ (l : List Pc) (t2 t : Nat), t2 ≠ t → (l.set t2 p).get? t = l.get? t := by
  intro l
  induction l with
  | nil => intro t2 t hne; simp [List.set]
  | cons y ys ih =>
    intro t2 t hne
    cases t2 with
    | zero =>
      cases t with
      | zero => exact absurd rfl hne
      | succ t => rfl
    | succ t2 =>
      cases t with
      | zero => rfl
      | succ t => exact ih t2 t (by omega)

theorem get?_replicate_idle : ∀ (T t : Nat), t < T →
    (List.replicate T Pc.idle).get? t = some Pc.idle := by
  intro T
  induction T with
  | zero => intro t ht; omega
  | succ T ih =>
    intro t ht
    rw [List.replicate_succ]
    cases t with
    | zero => rfl
    | succ t =>
      simp only [List.get?]
      exact ih t (by omega)

/-- The counting-semaphore invariant: the number of values queued in the
`sem` channel equals the number of goroutines holding a permit, and never
exceeds the capacity `W`. -/
def SemInv (W : Nat) (s : TState) : Prop :=
  s.sem = countP holdsPermit s.pcs ∧ s.sem ≤ W

theorem step_semInv {W : Nat} {s s2 : TState} {e : Ev}
    (hstep : step W s e = some s2) (hinv : SemInv W s) : SemInv W s2 := by
  obtain ⟨h1, h2⟩ := hinv
  cases e with
  | acquire t =>
    simp only [step] at hstep
    split_ifs at hstep with hc hcond
    · injection hstep with hstep
      subst hstep
      have hcs := countP_set holdsPermit s.pcs t Pc.idle Pc.acquired hcond.1
      have hcs2 : countP holdsPermit (s.pcs.set t Pc.acquired) + 0
          = countP holdsPermit s.pcs + 1 := hcs
      have hlt := hcond.2
      refine ⟨ ?_, ?_ ⟩
      · show s.sem + 1 = countP holdsPermit (s.pcs.set t Pc.acquired)
        omega
      · show s.sem + 1 ≤ W
        omega
  | lookupStart t =>
    simp only [step] at hstep
    split_ifs at hstep with hc hcond
    · injection hstep with hstep
      subst hstep
      have hcs := countP_set holdsPermit s.pcs t Pc.acquired Pc.inCall hcond
      have hcs2 : countP holdsPermit (s.pcs.set t Pc.inCall) + 1
          = countP holdsPermit s.pcs + 1 := hcs
      refine ⟨ ?_, ?_ ⟩
      · show s.sem = countP holdsPermit (s.pcs.set t Pc.inCall)
        omega
      · show s.sem ≤ W
        omega
  | lookupEnd t =>
    simp only [step] at hstep
    split_ifs at hstep with hc hcond
    · injection hstep with hstep
      subst hstep
      have hcs := countP_set holdsPermit s.pcs t Pc.inCall Pc.acquired hcond
      have hcs2 : countP holdsPermit (s.pcs.set t Pc.acquired) + 1
          = countP holdsPermit s.pcs + 1 := hcs
      refine ⟨ ?_, ?_ ⟩
      · show s.sem = countP holdsPermit (s.pcs.set t Pc.acquired)
        omega
      · show s.sem ≤ W
        omega
  | emit t =>
    simp only [step] at hstep
    split_ifs at hstep with hc hcond
    · injection hstep with hstep
      subst hstep
      have hcs := countP_set holdsPermit s.pcs t Pc.acquired Pc.emitted hcond
      have hcs2 : countP holdsPermit (s.pcs.set t Pc.emitted) + 1
          = countP holdsPermit s.pcs + 1 := hcs
      refine ⟨ ?_, ?_ ⟩
      · show s.sem = countP holdsPermit (s.pcs.set t Pc.emitted)
        omega
      · show s.sem ≤ W
        omega
  | release t =>
    simp only [step] at hstep
    split_ifs at hstep with hc hcond
    · injection hstep with hstep
      subst hstep
      have hcs := countP_set holdsPermit s.pcs t Pc.emitted Pc.released hcond
      have hcs2 : countP holdsPermit (s.pcs.set t Pc.released) + 1
          = countP holdsPermit s.pcs + 0 := hcs
      refine ⟨ ?_, ?_ ⟩
      · show s.sem - 1 = countP holdsPermit (s.pcs.set t Pc.released)
        omega
      · show s.sem - 1 ≤ W
        omega
  | taskDone t =>
    simp only [step] at hstep
    split_ifs at hstep with hc hcond
    · injection hstep with hstep
      subst hstep
      have hcs := countP_set holdsPermit s.pcs t Pc.released Pc.finished hcond
      have hcs2 : countP holdsPermit (s.pcs.set t Pc.finished) + 0
          = countP holdsPermit s.pcs + 0 := hcs
      refine ⟨ ?_, ?_ ⟩
      · show s.sem = countP holdsPermit (s.pcs.set t Pc.finished)
        omega
      · show s.sem ≤ W
        omega
  | close =>
    simp only [step] at hstep
    split_ifs at hstep with hc hcond
    · injection hstep with hstep
      subst hstep
      exact ⟨ h1, h2 ⟩

theorem runFrom_semInv {W : Nat} :
    ∀ (tr : List Ev) (s s2 : TState), runFrom W s tr = some s2 →
      SemInv W s → SemInv W s2 := by
  intro tr
  induction tr with
  | nil =>
    intro s s2 h hinv
    unfold runFrom at h
    injection h with h
    subst h
    exact hinv
  | cons e tr ih =>
    intro s s2 h hinv
    unfold runFrom at h
    cases hst : step W s e with
    | none => rw [hst] at h; cases h
    | some s1 =>
      rw [hst] at h
      exact ih s1 s2 h (step_semInv hst hinv)

/-- C9: for any semaphore capacity `W ≥ 1`, any number of records and
any possible scheduler trace, the number of goroutines whose external
lookup is in flight never exceeds `W`: each task holds one of the `W`
permits across its `client.Do` calls and releases it unconditionally on
completion. -/
theorem c9_inflight_bounded (W T : Nat) (hW : 1 ≤ W) (tr : List Ev) (s : TState)
    (hrun : runTrace W T tr = some s) :
    countP inFlight s.pcs ≤ W := by
  have hinit : SemInv W (initState T) := by
    refine ⟨ ?_, Nat.zero_le W ⟩
    exact (countP_replicate holdsPermit rfl T).symm
  have hinv := runFrom_semInv tr (initState T) s hrun hinit
  have hmono := countP_mono inFlight holdsPermit
    (by intro x hx; cases x <;> first | rfl | exact Bool.noConfusion hx) s.pcs
  obtain ⟨h1, h2⟩ := hinv
  omega

theorem c9_inflight_bounded_witness :
    countP inFlight (TState.mk [ Pc.inCall ] 1 false).pcs ≤ 1 :=
  c9_inflight_bounded 1 1 (Nat.le_refl 1) [ Ev.acquire 0, Ev.lookupStart 0 ]
    ⟨ [ Pc.inCall ], 1, false ⟩ rfl

/-- `true` on the program counter of a goroutine that has already sent
its row on `resultsChan` (it is at or past the `emit` point). -/
def pcEmitted : Option Pc → Bool
  | some Pc.emitted => true
  | some Pc.released => true
  | some Pc.finished => true
  | _ => false

theorem step_pcEmitted {W : Nat} {s s2 : TState} {e : Ev} (t : Nat)
    (hstep : step W s e = some s2)
    (h2 : pcEmitted (s2.pcs.get? t) = true) :
    pcEmitted (s.pcs.get? t) = true ∨ e = Ev.emit t := by
  cases e with
  | acquire t2 =>
    simp only [step] at hstep
    split_ifs at hstep with hc hcond
    injection hstep with hstep
    subst hstep
    left
    by_cases ht : t2 = t
    · subst ht
      rw [get?_set_self Pc.acquired s.pcs t2 Pc.idle hcond.1] at h2
      exact Bool.noConfusion h2
    · rw [get?_set_other Pc.acquired s.pcs t2 t ht] at h2
      exact h2
  | lookupStart t2 =>
    simp only [step] at hstep
    split_ifs at hstep with hc hcond
    injection hstep with hstep
    subst hstep
    left
    by_cases ht : t2 = t
    · subst ht
      rw [get?_set_self Pc.inCall s.pcs t2 Pc.acquired hcond] at h2
      exact Bool.noConfusion h2
    · rw [get?_set_other Pc.inCall s.pcs t2 t ht] at h2
      exact h2
  | lookupEnd t2 =>
    simp only [step] at hstep
    split_ifs at hstep with hc hcond
    injection hstep with hstep
    subst hstep
    left
    by_cases ht : t2 = t
    · subst ht
      rw [get?_set_self Pc.acquired s.pcs t2 Pc.inCall hcond] at h2
      exact Bool.noConfusion h2
    · rw [get?_set_other Pc.acquired s.pcs t2 t ht] at h2
      exact h2
  | emit t2 =>
    simp only [step] at hstep
    split_ifs at hstep with hc hcond
    injection hstep with hstep
    subst hstep
    by_cases ht : t2 = t
    · right
      rw [ht]
    · left
      rw [get?_set_other Pc.emitted s.pcs t2 t ht] at h2
      exact h2
  | release t2 =>
    simp only [step] at hstep
    split_ifs at hstep with hc hcond
    injection hstep with hstep
    subst hstep
    left
    by_cases ht : t2 = t
    · subst ht
      rw [hcond]
      rfl
    · rw [get?_set_other Pc.released s.pcs t2 t ht] at h2
      exact h2
  | taskDone t2 =>
    simp only [step] at hstep
    split_ifs at hstep with hc hcond
    injection hstep with hstep
    subst hstep
    left
    by_cases ht : t2 = t
    · subst ht
      rw [hcond]
      rfl
    · rw [get?_set_other Pc.finished s.pcs t2 t ht] at h2
      exact h2
  | close =>
    simp only [step] at hstep
    split_ifs at hstep with hc hcond
    injection hstep with hstep
    subst hstep
    left
    exact h2

theorem runFrom_emit_mem {W : Nat} :
    ∀ (tr : List Ev) (s s2 : TState), runFrom W s tr = some s2 →
      ∀ t, pcEmitted (s2.pcs.get? t) = true →
        pcEmitted (s.pcs.get? t) = true ∨ Ev.emit t ∈ tr := by
  intro tr
  induction tr with
  | nil =>
    intro s s2 h t h2
    unfold runFrom at h
    injection h with h
    subst h
    exact Or.inl h2
  | cons e tr ih =>
    intro s s2 h t h2
    unfold runFrom at h
    cases hst : step W s e with
    | none => rw [hst] at h; exact Option.noConfusion h
    | some s1 =>
      rw [hst] at h
      rcases ih s1 s2 h t h2 with h1 | h1
      · rcases step_pcEmitted t hst h1 with h0 | h0
        · exact Or.inl h0
        · right
          rw [h0]
          exact List.mem_cons_self _ _
      · exact Or.inr (List.mem_cons_of_mem e h1)

theorem step_closedAll {W : Nat} {s s2 : TState} {e : Ev}
    (hstep : step W s e = some s2)
    (hinv : s.closed = true → ∀ p ∈ s.pcs, p = Pc.finished) :
    s2.closed = true → ∀ p ∈ s2.pcs, p = Pc.finished := by
  cases e with
  | acquire t =>
    simp only [step] at hstep
    split_ifs at hstep with hc hcond
    injection hstep with hstep
    subst hstep
    intro hcl
    exact absurd hcl hc
  | lookupStart t =>
    simp only [step] at hstep
    split_ifs at hstep with hc hcond
    injection hstep with hstep
    subst hstep
    intro hcl
    exact absurd hcl hc
  | lookupEnd t =>
    simp only [step] at hstep
    split_ifs at hstep with hc hcond
    injection hstep with hstep
    subst hstep
    intro hcl
    exact absurd hcl hc
  | emit t =>
    simp only [step] at hstep
    split_ifs at hstep with hc hcond
    injection hstep with hstep
    subst hstep
    intro hcl
    exact absurd hcl hc
  | release t =>
    simp only [step] at hstep
    split_ifs at hstep with hc hcond
    injection hstep with hstep
    subst hstep
    intro hcl
    exact absurd hcl hc
  | taskDone t =>
    simp only [step] at hstep
    split_ifs at hstep with hc hcond
    injection hstep with hstep
    subst hstep
    intro hcl
    exact absurd hcl hc
  | close =>
    simp only [step] at hstep
    split_ifs at hstep with hc hcond
    injection hstep with hstep
    subst hstep
    intro _
    exact hcond

theorem runFrom_closedAll {W : Nat} :
    ∀ (tr : List Ev) (s s2 : TState), runFrom W s tr = some s2 →
      (s.closed = true → ∀ p ∈ s.pcs, p = Pc.finished) →
      (s2.closed = true → ∀ p ∈ s2.pcs, p = Pc.finished) := by
  intro tr
  induction tr with
  | nil =>
    intro s s2 h hinv
    unfold runFrom at h
    injection h with h
    subst h
    exact hinv
  | cons e tr ih =>
    intro s s2 h hinv
    unfold runFrom at h
    cases hst : step W s e with
    | none => rw [hst] at h; exact Option.noConfusion h
    | some s1 =>
      rw [hst] at h
      exact ih s1 s2 h (step_closedAll hst hinv)

theorem step_length {W : Nat} {s s2 : TState} {e : Ev}
    (hstep : step W s e = some s2) : s2.pcs.length = s.pcs.length := by
  cases e with
  | acquire t =>
    simp only [step] at hstep
    split_ifs at hstep with hc hcond
    injection hstep with hstep
    subst hstep
    exact List.length_set s.pcs t Pc.acquired
  | lookupStart t =>
    simp only [step] at hstep
    split_ifs at hstep with hc hcond
    injection hstep with hstep
    subst hstep
    exact List.length_set s.pcs t Pc.inCall
  | lookupEnd t =>
    simp only [step] at hstep
    split_ifs at hstep with hc hcond
    injection hstep with hstep
    subst hstep
    exact List.length_set s.pcs t Pc.acquired
  | emit t =>
    simp only [step] at hstep
    split_ifs at hstep with hc hcond
    injection hstep with hstep
    subst hstep
    exact List.length_set s.pcs t Pc.emitted
  | release t =>
    simp only [step] at hstep
    split_ifs at hstep with hc hcond
    injection hstep with hstep
    subst hstep
    exact List.length_set s.pcs t Pc.released
  | taskDone t =>
    simp only [step] at hstep
    split_ifs at hstep with hc hcond
    injection hstep with hstep
    subst hstep
    exact List.length_set s.pcs t Pc.finished
  | close =>
    simp only [step] at hstep
    split_ifs at hstep with hc hcond
    injection hstep with hstep
    subst hstep
    rfl

theorem runFrom_length {W : Nat} :
    ∀ (tr : List Ev) (s s2 : TState), runFrom W s tr = some s2 →
      s2.pcs.length = s.pcs.length := by
  intro tr
  induction tr with
  | nil =>
    intro s s2 h
    unfold runFrom at h
    injection h with h
    subst h
    rfl
  | cons e tr ih =>
    intro s s2 h
    unfold runFrom at h
    cases hst : step W s e with
    | none => rw [hst] at h; exact Option.noConfusion h
    | some s1 =>
      rw [hst] at h
      rw [ih s1 s2 h, step_length hst]

theorem get?_mem : ∀ (l : List Pc) (t : Nat), t < l.length →
    ∃ x, l.get? t = some x ∧ x ∈ l := by
  intro l
  induction l with
  | nil => intro t ht; simp at ht
  | cons y ys ih =>
    intro t ht
    cases t with
    | zero => exact ⟨ y, rfl, List.mem_cons_self y ys ⟩
    | succ t =>
      obtain ⟨x, hget, hmem⟩ := ih t (by simpa using ht)
      exact ⟨ x, hget, List.mem_cons_of_mem y hmem ⟩

/-- C8: the close of `resultsChan` happens only after every spawned
goroutine has emitted its terminal record: in any scheduler trace whose
final state is closed, an `emit` event occurred for every record of the
batch, and every record a goroutine can emit is terminal
(`IsPending = false`), so no `Pending` record is ever observed at or
after stream close. -/
theorem c8_close_only_after_all_emitted (oracles : Nat → Nat → AttemptResult)
    (dnis nombres : List String) (W : Nat) (tr : List Ev) (s : TState)
    (hrun : runTrace W (parseBatch dnis nombres).length tr = some s)
    (hclosed : s.closed = true) :
    (∀ t, t < (parseBatch dnis nombres).length → Ev.emit t ∈ tr) ∧
    (∀ res ∈ processBatch oracles (parseBatch dnis nombres),
      res.IsPending = false) := by
  constructor
  · intro t ht
    have hlen : s.pcs.length = (parseBatch dnis nombres).length := by
      have hl := runFrom_length tr (initState (parseBatch dnis nombres).length) s hrun
      rw [hl]
      exact List.length_replicate _ _
    have hall := runFrom_closedAll tr (initState (parseBatch dnis nombres).length) s
      hrun (fun hcl => Bool.noConfusion hcl) hclosed
    obtain ⟨x, hget, hmem⟩ := get?_mem s.pcs t (by omega)
    have hx := hall x hmem
    rw [hx] at hget
    have hpe : pcEmitted (s.pcs.get? t) = true := by rw [hget]; rfl
    rcases runFrom_emit_mem tr (initState (parseBatch dnis nombres).length) s
        hrun t hpe with h0 | h0
    · rw [show (initState (parseBatch dnis nombres).length).pcs
          = List.replicate (parseBatch dnis nombres).length Pc.idle from rfl,
        get?_replicate_idle _ t ht] at h0
      exact Bool.noConfusion h0
    · exact h0
  · intro res hres
    rcases List.mem_map.mp hres with ⟨r, hr, hres⟩
    rw [← hres]
    exact finishRow_IsPending _ _

theorem c8_close_only_after_all_emitted_witness :
    (∀ t, t < (parseBatch [ "1" ] [ "a" ]).length →
      Ev.emit t ∈ [ Ev.acquire 0, Ev.lookupStart 0, Ev.lookupEnd 0, Ev.emit 0,
        Ev.release 0, Ev.taskDone 0, Ev.close ]) ∧
    (∀ res ∈ processBatch (fun _ => allServerError) (parseBatch [ "1" ] [ "a" ]),
      res.IsPending = false) :=
  c8_close_only_after_all_emitted (fun _ => allServerError) [ "1" ] [ "a" ] 1
    [ Ev.acquire 0, Ev.lookupStart 0, Ev.lookupEnd 0, Ev.emit 0, Ev.release 0,
      Ev.taskDone 0, Ev.close ]
    ⟨ [ Pc.finished ], 0, true ⟩ rfl rfl
